import Mathlib

/-!
Verification of the resume-parser pipeline (src/app.py) against its
specification.  The code is shallowly embedded: the spaCy model and the
PDF/OCR collaborators are abstracted exactly as the spec directs (an
entity recognizer producing labeled spans, and per-page text/OCR outputs),
every regex of the source is embedded as an executable matcher that follows
Python `re` search semantics (leftmost position, greedy classes with
backtracking, ASCII word boundaries) for the character classes the pattern
uses, and the FastAPI endpoints are embedded with their try/except
structure made explicit.  Texts are modelled over ASCII/Unicode `Char`
lists; Python's `str.strip`, `str.splitlines` and the regex classes
`\d  \s  \w` are embedded for their ASCII behaviour.
-/

set_option maxRecDepth 8000

namespace DeployParser

/-- ASCII letter: what the classes `[A-Z]`/`[a-z]` match once `re.IGNORECASE`
is in force, and the alphabetic part of `\w`. -/
def asciiAlpha (c : Char) : Bool :=
  (('a' ≤ c) && (c ≤ 'z')) || (('A' ≤ c) && (c ≤ 'Z'))

/-- The characters of Python's regex class `\s` (and of `str.strip`),
ASCII part: space, tab, newline, vertical tab, form feed, carriage return. -/
def pySpace (c : Char) : Bool :=
  c == ' ' || c == '\t' || c == '\n' || c == '\x0b' || c == '\x0c' || c == '\r'

/-- Word characters for Python's `\b` word-boundary assertion (`\w`). -/
def isWordChar (c : Char) : Bool := asciiAlpha c || c.isDigit || c == '_'

/-- Python `str.strip()`: remove leading and trailing whitespace. -/
def pyStrip (s : String) : String :=
  String.mk (((s.data.dropWhile pySpace).reverse.dropWhile pySpace).reverse)

/-- The line-break characters of Python `str.splitlines`. -/
def isLineBreak (c : Char) : Bool :=
  c == '\n' || c == '\r' || c == '\x0b' || c == '\x0c' || c == '\x1c' ||
  c == '\x1d' || c == '\x1e' || c == '\x85' || c == '\u2028' || c == '\u2029'

/-- Worker for `splitlines`: `acc` holds the current line reversed. -/
def splitlinesAux : List Char → List Char → List String
  | [], acc => if acc.isEmpty then [] else [String.mk acc.reverse]
  | '\r' :: '\n' :: rest, acc => String.mk acc.reverse :: splitlinesAux rest []
  | c :: rest, acc =>
    if isLineBreak c then String.mk acc.reverse :: splitlinesAux rest []
    else splitlinesAux rest (c :: acc)

/-- Python `str.splitlines()`: split at line breaks (`\r\n` counts once),
no trailing empty line. -/
def splitlines (s : String) : List String := splitlinesAux s.data []

/-- src/app.py `is_valid_phone`: drop every non-digit character
(`re.sub(r"[^\d]", "", number)`) and accept iff 10..13 digits remain. -/
def is_valid_phone (number : String) : Bool :=
  let cleaned := number.data.filter Char.isDigit
  decide (10 ≤ cleaned.length) && decide (cleaned.length ≤ 13)

/-- One labeled span produced by the spaCy model collaborator, the
`ent.label_` / `ent.text` pair the pipeline reads. -/
structure EntitySpan where
  label : String
  text : String

/-- The single pass over `doc.ents` (src/app.py lines 59-65), threading the
mutable `(name, location, skills)` parts of `extracted_info`. -/
def entityPass : List EntitySpan → String × String × List String → String × String × List String
  | [], acc => acc
  | e :: es, (n, l, sk) =>
    if e.label = "PERSON" ∧ n = "" then entityPass es (pyStrip e.text, l, sk)
    else if (e.label = "GPE" ∨ e.label = "LOC") ∧ l = "" then entityPass es (n, pyStrip e.text, sk)
    else if e.label = "SKILL" then entityPass es (n, l, sk ++ [pyStrip e.text])
    else entityPass es (n, l, sk)

/-- The trimmed text of the first PERSON span whose trimmed text is nonempty:
the name the entity pass of the code can resolve. -/
def firstPersonCandidate (ents : List EntitySpan) : Option String :=
  ents.findSome? fun e =>
    if e.label = "PERSON" ∧ pyStrip e.text ≠ "" then some (pyStrip e.text) else none

/-- Name fallback 1, `re.match(r"(?i)^([A-Z][a-z]+)\s+([A-Z][a-z]+)", line)`
on an already stripped line.  Under IGNORECASE each word is a maximal run of
at least two ASCII letters; the classes of consecutive atoms are disjoint, so
each greedy run is forced and the full match is word, whitespace run, word. -/
def nameMatch2 (l : List Char) : Option (List Char) :=
  let w1 := l.takeWhile asciiAlpha
  let r1 := l.dropWhile asciiAlpha
  if 2 ≤ w1.length then
    let ws := r1.takeWhile pySpace
    let r2 := r1.dropWhile pySpace
    if ws ≠ [] then
      let w2 := r2.takeWhile asciiAlpha
      if 2 ≤ w2.length then some (w1 ++ ws ++ w2) else none
    else none
  else none

/-- Name fallback 2, `re.search(r"(?i)^name[:\s]*([A-Z][a-z]+\s[A-Z][a-z]+)", line)`
on an already stripped line (the `^` anchors the search at the start).  Returns
the captured group: word, one whitespace character, word. -/
def nameMatch3 (l : List Char) : Option (List Char) :=
  match l with
  | c1 :: c2 :: c3 :: c4 :: rest =>
    if c1.toLower = 'n' ∧ c2.toLower = 'a' ∧ c3.toLower = 'm' ∧ c4.toLower = 'e' then
      let r1 := rest.dropWhile (fun c => c == ':' || pySpace c)
      let w1 := r1.takeWhile asciiAlpha
      let r2 := r1.dropWhile asciiAlpha
      if 2 ≤ w1.length then
        match r2 with
        | c :: r3 =>
          if pySpace c then
            let w2 := r3.takeWhile asciiAlpha
            if 2 ≤ w2.length then some (w1 ++ c :: w2) else none
          else none
        | [] => none
      else none
    else none
  | _ => none

/-- `re.search` position scan: try the pattern matcher at each position from
the left, handing it whether the preceding character is a word character
(what the `\b` assertion needs). -/
def searchAux (m : Bool → List Char → Option (List Char)) : Bool → List Char → Option (List Char)
  | _, [] => none
  | pw, c :: cs =>
    match m pw (c :: cs) with
    | some r => some r
    | none => searchAux m (isWordChar c) cs

/-- Whether a position is followed by a word character (out-of-string counts
as non-word), the right half of a `\b` test. -/
def wordAfter : List Char → Bool
  | [] => false
  | c :: _ => isWordChar c

/-- The email regex classes: local part `[a-zA-Z0-9_.+-]`. -/
def isLocalChar (c : Char) : Bool :=
  asciiAlpha c || c.isDigit || c == '_' || c == '.' || c == '+' || c == '-'

/-- First domain label `[a-zA-Z0-9-]`. -/
def isDom1Char (c : Char) : Bool := asciiAlpha c || c.isDigit || c == '-'

/-- Domain tail `[a-zA-Z0-9-.]`. -/
def isDom2Char (c : Char) : Bool := asciiAlpha c || c.isDigit || c == '-' || c == '.'

/-- Backtracking of a final greedy class against a trailing `\b`: given the
greedy run reversed and what follows it, drop characters from its end until
the boundary holds; returns the kept part still reversed. -/
def shrinkRev : List Char → List Char → Option (List Char)
  | [], _ => none
  | c :: rs, rest =>
    if isWordChar c ≠ wordAfter rest then some (c :: rs) else shrinkRev rs (c :: rest)

/-- One attempt of the email regex
`\b[a-zA-Z0-9_.+-]+@[a-zA-Z0-9-]+\.[a-zA-Z0-9-.]+\b` at a position.  The
classes before `@` and `.` are disjoint from those literals, so their greedy
runs are forced; only the final class backtracks against the trailing `\b`. -/
def emailMatchAt (pw : Bool) (cs : List Char) : Option (List Char) :=
  if pw ≠ wordAfter cs then
    let loc := cs.takeWhile isLocalChar
    let r1 := cs.dropWhile isLocalChar
    if loc ≠ [] ∧ r1.head? = some '@' then
      let r2 := r1.tail
      let d1 := r2.takeWhile isDom1Char
      let r3 := r2.dropWhile isDom1Char
      if d1 ≠ [] ∧ r3.head? = some '.' then
        let r4 := r3.tail
        let d2 := r4.takeWhile isDom2Char
        let r5 := r4.dropWhile isDom2Char
        (shrinkRev d2.reverse r5).map (fun revKept => loc ++ '@' :: d1 ++ '.' :: revKept.reverse)
      else none
    else none
  else none

/-- The email search of src/app.py line 95. -/
def emailSearch (text : String) : Option String :=
  (searchAux emailMatchAt false text.data).map String.mk

/-- The separator class `[\s\-]` of the phone fallback regex. -/
def isSep (c : Char) : Bool := pySpace c || c == '-'

/-- `\d{10,13}\b`: the greedy digit run with its trailing boundary.  A shorter
run would be followed by a digit and fail `\b`, so the whole maximal run must
be taken: it succeeds iff the maximal run has 10..13 digits and is followed
by a non-word character or the end. -/
def phoneDigits (cs : List Char) : Option (List Char) :=
  let run := cs.takeWhile Char.isDigit
  let rest := cs.dropWhile Char.isDigit
  if 10 ≤ run.length ∧ run.length ≤ 13 ∧ wordAfter rest = false then some run else none

/-- One attempt of the phone fallback regex `\b(?:\+91[\s\-]*)?\d{10,13}\b`
at a position.  With the optional prefix taken, the first matched character is
the non-word `+`, so the leading `\b` demands a word character before it; with
the prefix dropped, the first character is a digit and the position before
must be non-word.  At any one position at most one branch can apply. -/
def phoneMatchAt (pw : Bool) (cs : List Char) : Option (List Char) :=
  if cs.take 3 = ['+', '9', '1'] then
    if pw then
      let rest := cs.drop 3
      let seps := rest.takeWhile isSep
      let r2 := rest.dropWhile isSep
      (phoneDigits r2).map (fun run => '+' :: '9' :: '1' :: (seps ++ run))
    else none
  else if wordAfter cs ∧ pw = false then phoneDigits cs else none

/-- The phone fallback search of src/app.py line 108. -/
def phoneFallbackSearch (text : String) : Option String :=
  (searchAux phoneMatchAt false text.data).map String.mk

/-- Case-insensitive literal match: the pattern (given lowercase) against a
prefix of the input; returns the consumed original characters and the rest. -/
def litCI : List Char → List Char → Option (List Char × List Char)
  | [], cs => some ([], cs)
  | p :: ps, c :: cs =>
    if c.toLower = p then
      match litCI ps cs with
      | some (u, r) => some (c :: u, r)
      | none => none
    else none
  | _ :: _, [] => none

/-- The username token class `[a-zA-Z0-9_-]` of the social-link regexes. -/
def urlTokenChar (c : Char) : Bool := asciiAlpha c || c.isDigit || c == '_' || c == '-'

/-- The fixed core of a social-link regex: the site literal then a nonempty
greedy token run. -/
def urlCore (site : List Char) (cs : List Char) : Option (List Char) :=
  match litCI site cs with
  | some (u, r) =>
    let tok := r.takeWhile urlTokenChar
    if tok ≠ [] then some (u ++ tok) else none
  | none => none

/-- `(www\.)?` then the core, with the regex backtracking: the optional group
is tried first, and on failure of the rest the group is dropped. -/
def urlWww (site : List Char) (cs : List Char) : Option (List Char) :=
  match litCI ['w', 'w', 'w', '.'] cs with
  | some (u, r) =>
    match urlCore site r with
    | some m2 => some (u ++ m2)
    | none => urlCore site cs
  | none => urlCore site cs

/-- `(https?://)?(www\.)?` then the core: `https?` prefers the `s`, each
optional group prefers presence, dropped on failure of what follows. -/
def urlMatchAt (site : List Char) (cs : List Char) : Option (List Char) :=
  match litCI ['h', 't', 't', 'p', 's', ':', '/', '/'] cs with
  | some (u, r) =>
    match urlWww site r with
    | some m2 => some (u ++ m2)
    | none => urlWww site cs
  | none =>
    match litCI ['h', 't', 't', 'p', ':', '/', '/'] cs with
    | some (u, r) =>
      match urlWww site r with
      | some m2 => some (u ++ m2)
      | none => urlWww site cs
    | none => urlWww site cs

/-- The LinkedIn search of src/app.py line 113 (IGNORECASE; no `\b`). -/
def linkedinSearch (text : String) : Option String :=
  (searchAux (fun _ cs => urlMatchAt ("linkedin.com/in/".data) cs) false text.data).map String.mk

/-- The GitHub search of src/app.py line 118 (IGNORECASE; no `\b`). -/
def githubSearch (text : String) : Option String :=
  (searchAux (fun _ cs => urlMatchAt ("github.com/".data) cs) false text.data).map String.mk

/-- Modelled from the spec: the `nameparser.HumanName` collaborator
(NameSplitter, spec 4.3) is external library code absent from src/.  Per the
spec, the first token of the resolved name is the first name; here the
whitespace-separated tokens. -/
def nameTokens (s : String) : List String :=
  (s.split (fun c => pySpace c)).filter (fun t => t ≠ "")

/-- Modelled from the spec: `HumanName(name).first`, the first token,
empty for an empty name. -/
def hnFirst (s : String) : String := (nameTokens s).headD ""

/-- Modelled from the spec: `HumanName(name).last`, the last token when the
name has at least two parseable parts, empty otherwise. -/
def hnLast (s : String) : String :=
  if 2 ≤ (nameTokens s).length then (nameTokens s).getLastD "" else ""

/-- The result dictionary of `extract_info_with_spacy_regex`.  The keys
`name`, `email`, `phone`, `location`, `skills` are created up front with
empty defaults; the keys `First Name`, `Last Name`, `linkedin`, `github` are
added only on the branches that set them, hence `Option`. -/
structure ExtractedRecord where
  name : String
  email : String
  phone : String
  location : String
  skills : List String
  firstName : Option String
  lastName : Option String
  linkedin : Option String
  github : Option String

/-- Name fallback 1 applied to the first 10 lines (src/app.py lines 74-82). -/
def nameFromLines10 (lines : List String) : Option (List Char) :=
  (lines.take 10).findSome? (fun l => nameMatch2 (pyStrip l).data)

/-- Name fallback 2 applied to every line (src/app.py lines 84-92). -/
def nameFromLinesAll (lines : List String) : Option (List Char) :=
  lines.findSome? (fun l => nameMatch3 (pyStrip l).data)

/-- The name cascade of src/app.py lines 59-92: entity pass first, then the
two line-regex fallbacks, each only while the name is still empty. -/
def resolveName (ents : List EntitySpan) (lines : List String) : String :=
  let name0 := (entityPass ents ("", "", [])).1
  let name1 :=
    if name0 = "" then
      match nameFromLines10 lines with
      | some m => pyStrip (String.mk m)
      | none => ""
    else name0
  if name1 = "" then
    match nameFromLinesAll lines with
    | some g => pyStrip (String.mk g)
    | none => ""
  else name1

/-- The phone cascade of src/app.py lines 99-110: first valid PHONE entity,
then the fallback regex, whose match must itself pass `is_valid_phone`. -/
def resolvePhone (ents : List EntitySpan) (text : String) : String :=
  let cands := (ents.filter (fun e => e.label == "PHONE")).map (fun e => pyStrip e.text)
  let fromEnts := (cands.find? (fun num => is_valid_phone num)).getD ""
  if fromEnts = "" then
    match phoneFallbackSearch text with
    | some m => if is_valid_phone m then m else ""
    | none => ""
  else fromEnts

/-- src/app.py `extract_info_with_spacy_regex`, with the spaCy model passed
as the abstract entity recognizer `nlp`. -/
def extract_info_with_spacy_regex (nlp : String → List EntitySpan) (text : String) :
    ExtractedRecord :=
  let ents := nlp text
  let lines := splitlines text
  let name := resolveName ents lines
  let fl : Option String × Option String :=
    if name = "" then (none, none)
    else (some (pyStrip (hnFirst name)), some (pyStrip (hnLast name)))
  { name := name
    email := (emailSearch text).getD ""
    phone := resolvePhone ents text
    location := (entityPass ents ("", "", [])).2.1
    skills := (entityPass ents ("", "", [])).2.2
    firstName := fl.1
    lastName := fl.2
    linkedin := linkedinSearch text
    github := githubSearch text }

/-- One PDF page with its two collaborator outputs abstracted: the embedded
text layer (`page.get_text()`) and the OCR reading of its rendered image
(`pytesseract.image_to_string` at 300 DPI). -/
structure PdfPage where
  directText : String
  ocrText : String

/-- src/app.py `extract_text_with_ocr`: per page, render and OCR, appending
the page text plus a newline; the second component counts OCR invocations
(one per loop iteration). -/
def extract_text_with_ocr (pages : List PdfPage) : String × Nat :=
  pages.foldl (fun acc p => (acc.1 ++ p.ocrText ++ "\n", acc.2 + 1)) ("", 0)

/-- src/app.py `extract_text_from_pdf`: concatenate the text layer of every
page; if the stripped result is shorter than 100 characters, replace it with
the OCR text.  The second component counts OCR invocations. -/
def extract_text_from_pdf (pages : List PdfPage) : String × Nat :=
  let text := pages.foldl (fun acc p => acc ++ p.directText) ""
  if (pyStrip text).length < 100 then extract_text_with_ocr pages
  else (text, 0)

/-- `fastapi.HTTPException`: a status code and a detail message.  Its
`str()` is `"{status_code}: {detail}"`. -/
structure HTTPException where
  status_code : Nat
  detail : String

/-- The `except Exception as e` handler of an endpoint: any exception of the
body — an explicitly raised `HTTPException` included, since it subclasses
`Exception` — is replaced by `HTTPException(500, pre + str(e))`. -/
def wrapErrors (pre : String) (body : Except HTTPException ExtractedRecord) :
    Except HTTPException ExtractedRecord :=
  match body with
  | Except.ok r => Except.ok r
  | Except.error e => Except.error ⟨500, pre ++ toString e.status_code ++ ": " ++ e.detail⟩

/-- src/app.py `parse_resume`: the whole body inside try/except.  In this
embedding the collaborators are total, so the body cannot raise. -/
def parse_resume (nlp : String → List EntitySpan) (text : String) :
    Except HTTPException ExtractedRecord :=
  wrapErrors "Error processing resume: " (Except.ok (extract_info_with_spacy_regex nlp text))

/-- src/app.py `parse_resume_pdf`: inside the try, a declared content type
other than application/pdf raises `HTTPException(400, "File must be a PDF")`
before the file is read; otherwise the PDF text is extracted and parsed.  The
second component counts invocations of the text-extraction collaborator. -/
def parse_resume_pdf (nlp : String → List EntitySpan) (content_type : String)
    (pages : List PdfPage) : Except HTTPException ExtractedRecord × Nat :=
  let body : Except HTTPException ExtractedRecord × Nat :=
    if content_type ≠ "application/pdf" then
      (Except.error ⟨400, "File must be a PDF"⟩, 0)
    else
      (Except.ok (extract_info_with_spacy_regex nlp (extract_text_from_pdf pages).1), 1)
  (wrapErrors "Error processing PDF: " body.1, body.2)

/-- Well-formedness of an email address for the whitespace-independence
property: the exact shape on which the email regex, surrounded by
whitespace, matches the whole address — nonempty local part of local
characters starting with a word character, `@`, nonempty first domain label,
`.`, nonempty domain tail ending in a word character, nothing after. -/
def wellFormedEmail (a : String) : Bool :=
  let cs := a.data
  let loc := cs.takeWhile isLocalChar
  let r1 := cs.dropWhile isLocalChar
  let d1 := (r1.drop 1).takeWhile isDom1Char
  let r3 := (r1.drop 1).dropWhile isDom1Char
  let d2 := (r3.drop 1).takeWhile isDom2Char
  let r5 := (r3.drop 1).dropWhile isDom2Char
  decide (loc ≠ []) && (r1.head? == some '@') && decide (d1 ≠ []) &&
    (r3.head? == some '.') && decide (d2 ≠ []) && r5.isEmpty &&
    wordAfter loc && wordAfter d2.reverse


/-! ## Generic helper lemmas -/

theorem takeWhile_app {p : Char → Bool} (l r : List Char)
    (hl : ∀ c ∈ l, p c = true) (hr : ∀ c, r.head? = some c → p c = false) :
    (l ++ r).takeWhile p = l := by
  induction l with
  | nil =>
    cases r with
    | nil => rfl
    | cons c cs => simp [List.takeWhile_cons, hr c rfl]
  | cons c cs ih =>
    have hc : p c = true := hl c (by simp)
    simp [List.takeWhile_cons, hc, ih (fun x hx => hl x (by simp [hx]))]

theorem dropWhile_app {p : Char → Bool} (l r : List Char)
    (hl : ∀ c ∈ l, p c = true) (hr : ∀ c, r.head? = some c → p c = false) :
    (l ++ r).dropWhile p = r := by
  induction l with
  | nil =>
    cases r with
    | nil => rfl
    | cons c cs => simp [List.dropWhile_cons, hr c rfl]
  | cons c cs ih =>
    have hc : p c = true := hl c (by simp)
    simp [List.dropWhile_cons, hc, ih (fun x hx => hl x (by simp [hx]))]

theorem string_eq_of_data {s t : String} (h : s.data = t.data) : s = t :=
  congrArg String.mk h

theorem pySpace_not_word {c : Char} (h : pySpace c = true) : isWordChar c = false := by
  simp only [pySpace, Bool.or_eq_true, beq_iff_eq] at h
  rcases h with ((((h | h) | h) | h) | h) | h <;> subst h <;> decide

theorem pySpace_not_dom2 {c : Char} (h : pySpace c = true) : isDom2Char c = false := by
  simp only [pySpace, Bool.or_eq_true, beq_iff_eq] at h
  rcases h with ((((h | h) | h) | h) | h) | h <;> subst h <;> decide

theorem pySpace_not_digit {c : Char} (h : pySpace c = true) : c.isDigit = false := by
  simp only [pySpace, Bool.or_eq_true, beq_iff_eq] at h
  rcases h with ((((h | h) | h) | h) | h) | h <;> subst h <;> decide

theorem isSep_not_digit {c : Char} (h : isSep c = true) : c.isDigit = false := by
  simp only [isSep, Bool.or_eq_true, beq_iff_eq] at h
  rcases h with h | h
  · exact pySpace_not_digit h
  · subst h; decide

/-! ## The entity pass -/

theorem entityPass_cons (e : EntitySpan) (es : List EntitySpan) (n l : String)
    (sk : List String) :
    entityPass (e :: es) (n, l, sk) =
      if e.label = "PERSON" ∧ n = "" then entityPass es (pyStrip e.text, l, sk)
      else if (e.label = "GPE" ∨ e.label = "LOC") ∧ l = "" then
        entityPass es (n, pyStrip e.text, sk)
      else if e.label = "SKILL" then entityPass es (n, l, sk ++ [pyStrip e.text])
      else entityPass es (n, l, sk) := rfl

theorem firstPersonCandidate_cons (e : EntitySpan) (es : List EntitySpan) :
    firstPersonCandidate (e :: es) =
      if e.label = "PERSON" ∧ pyStrip e.text ≠ "" then some (pyStrip e.text)
      else firstPersonCandidate es := by
  by_cases hc : e.label = "PERSON" ∧ pyStrip e.text ≠ ""
  · simp only [firstPersonCandidate, List.findSome?_cons, if_pos hc]
  · simp only [firstPersonCandidate, List.findSome?_cons, if_neg hc]

theorem entityPass_name_stable (es : List EntitySpan) : ∀ n l sk, n ≠ "" →
    (entityPass es (n, l, sk)).1 = n := by
  induction es with
  | nil => intro n l sk _; rfl
  | cons e es ih =>
    intro n l sk h
    rw [entityPass_cons]
    by_cases h1 : e.label = "PERSON" ∧ n = ""
    · exact absurd h1.2 h
    · rw [if_neg h1]
      by_cases h2 : (e.label = "GPE" ∨ e.label = "LOC") ∧ l = ""
      · rw [if_pos h2]; exact ih n _ sk h
      · rw [if_neg h2]
        by_cases h3 : e.label = "SKILL"
        · rw [if_pos h3]; exact ih n l _ h
        · rw [if_neg h3]; exact ih n l sk h

theorem firstPersonCandidate_ne_empty (es : List EntitySpan) (n : String)
    (h : firstPersonCandidate es = some n) : n ≠ "" := by
  induction es with
  | nil => simp [firstPersonCandidate] at h
  | cons e es ih =>
    rw [firstPersonCandidate_cons] at h
    by_cases hc : e.label = "PERSON" ∧ pyStrip e.text ≠ ""
    · rw [if_pos hc] at h
      cases h
      exact hc.2
    · rw [if_neg hc] at h
      exact ih h

theorem entityPass_name_candidate (es : List EntitySpan) : ∀ l sk n,
    firstPersonCandidate es = some n → (entityPass es ("", l, sk)).1 = n := by
  induction es with
  | nil => intro l sk n h; simp [firstPersonCandidate] at h
  | cons e es ih =>
    intro l sk n h
    rw [firstPersonCandidate_cons] at h
    rw [entityPass_cons]
    by_cases hc : e.label = "PERSON" ∧ pyStrip e.text ≠ ""
    · rw [if_pos hc] at h
      cases h
      rw [if_pos ⟨hc.1, rfl⟩]
      exact entityPass_name_stable es _ _ _ hc.2
    · rw [if_neg hc] at h
      by_cases hp : e.label = "PERSON"
      · have ht : pyStrip e.text = "" := by
          by_contra hne
          exact hc ⟨hp, hne⟩
        rw [if_pos ⟨hp, rfl⟩, ht]
        exact ih l sk n h
      · have h1 : ¬(e.label = "PERSON" ∧ ("" : String) = "") := fun hx => hp hx.1
        rw [if_neg h1]
        by_cases h2 : (e.label = "GPE" ∨ e.label = "LOC") ∧ l = ""
        · rw [if_pos h2]; exact ih _ sk n h
        · rw [if_neg h2]
          by_cases h3 : e.label = "SKILL"
          · rw [if_pos h3]; exact ih l _ n h
          · rw [if_neg h3]; exact ih l sk n h

theorem entityPass_name_no_person (es : List EntitySpan) : ∀ l sk,
    (∀ e ∈ es, e.label ≠ "PERSON") → (entityPass es ("", l, sk)).1 = "" := by
  induction es with
  | nil => intro l sk _; rfl
  | cons e es ih =>
    intro l sk h
    have he : e.label ≠ "PERSON" := h e (by simp)
    have h' : ∀ x ∈ es, x.label ≠ "PERSON" := fun x hx => h x (by simp [hx])
    rw [entityPass_cons]
    rw [if_neg (fun hx => he hx.1)]
    by_cases h2 : (e.label = "GPE" ∨ e.label = "LOC") ∧ l = ""
    · rw [if_pos h2]; exact ih _ sk h'
    · rw [if_neg h2]
      by_cases h3 : e.label = "SKILL"
      · rw [if_pos h3]; exact ih l _ h'
      · rw [if_neg h3]; exact ih l sk h'

theorem entityPass_skills (es : List EntitySpan) : ∀ n l sk,
    (entityPass es (n, l, sk)).2.2
      = sk ++ (es.filter (fun e => e.label == "SKILL")).map (fun e => pyStrip e.text) := by
  induction es with
  | nil => intro n l sk; simp [entityPass]
  | cons e es ih =>
    intro n l sk
    rw [entityPass_cons]
    by_cases h1 : e.label = "PERSON" ∧ n = ""
    · have hs : (e.label == "SKILL") = false := by simp [h1.1]
      rw [if_pos h1]
      simp [List.filter_cons, hs, ih]
    · rw [if_neg h1]
      by_cases h2 : (e.label = "GPE" ∨ e.label = "LOC") ∧ l = ""
      · have hs : (e.label == "SKILL") = false := by
          rcases h2.1 with h | h <;> simp [h]
        rw [if_pos h2]
        simp [List.filter_cons, hs, ih]
      · rw [if_neg h2]
        by_cases h3 : e.label = "SKILL"
        · have hs : (e.label == "SKILL") = true := by simp [h3]
          rw [if_pos h3]
          simp [List.filter_cons, hs, ih]
        · have hs : (e.label == "SKILL") = false := by simpa using h3
          rw [if_neg h3]
          simp [List.filter_cons, hs, ih]

/-! ## The name cascade -/

theorem resolveName_entity (ents : List EntitySpan) (lines : List String) (n : String)
    (h : firstPersonCandidate ents = some n) : resolveName ents lines = n := by
  have hn := firstPersonCandidate_ne_empty ents n h
  have h0 : (entityPass ents ("", "", [])).1 = n := entityPass_name_candidate ents "" [] n h
  simp only [resolveName, h0, if_neg hn]

theorem resolveName_strategy3 (ents : List EntitySpan) (lines : List String) (g : List Char)
    (h1 : ∀ e ∈ ents, e.label ≠ "PERSON")
    (h2 : nameFromLines10 lines = none) (h3 : nameFromLinesAll lines = some g) :
    resolveName ents lines = pyStrip (String.mk g) := by
  have h0 : (entityPass ents ("", "", [])).1 = "" := entityPass_name_no_person ents "" [] h1
  simp [resolveName, h0, h2, h3]


/-! ## String concatenation helpers -/

theorem str_append_data (s t : String) : (s ++ t).data = s.data ++ t.data := rfl

theorem str_nil_append (s : String) : "" ++ s = s :=
  string_eq_of_data (by simp [str_append_data])

theorem foldl_str_shift (l : List String) : ∀ a : String,
    l.foldl (fun r x => r ++ x) a = a ++ l.foldl (fun r x => r ++ x) "" := by
  induction l with
  | nil => intro a; exact (string_eq_of_data (by simp [str_append_data])).symm
  | cons x xs ih =>
    intro a
    show xs.foldl _ (a ++ x) = a ++ xs.foldl _ ("" ++ x)
    rw [ih (a ++ x), ih ("" ++ x)]
    apply string_eq_of_data
    simp [str_append_data]

theorem str_join_cons (s : String) (l : List String) :
    String.join (s :: l) = s ++ String.join l := by
  show l.foldl (fun r x => r ++ x) ("" ++ s) = s ++ String.join l
  rw [foldl_str_shift]
  apply string_eq_of_data
  simp [str_append_data, String.join]

theorem foldl_direct_text (pages : List PdfPage) : ∀ s : String,
    pages.foldl (fun acc p => acc ++ p.directText) s
      = s ++ String.join (pages.map fun p => p.directText) := by
  induction pages with
  | nil => intro s; exact (string_eq_of_data (by simp [str_append_data])).symm
  | cons p ps ih =>
    intro s
    show ps.foldl _ (s ++ p.directText) = s ++ String.join (p.directText :: ps.map _)
    rw [ih, str_join_cons]
    apply string_eq_of_data
    simp [str_append_data]

theorem foldl_ocr_text (pages : List PdfPage) : ∀ (s : String) (k : Nat),
    pages.foldl (fun acc p => (acc.1 ++ p.ocrText ++ "\n", acc.2 + 1)) (s, k)
      = (s ++ String.join (pages.map fun p => p.ocrText ++ "\n"), k + pages.length) := by
  induction pages with
  | nil =>
    intro s k
    refine Prod.ext ?_ ?_
    · exact (string_eq_of_data (by simp [str_append_data])).symm
    · simp
  | cons p ps ih =>
    intro s k
    show ps.foldl _ (s ++ p.ocrText ++ "\n", k + 1) = _
    rw [ih, List.map_cons, str_join_cons]
    refine Prod.ext ?_ ?_
    · apply string_eq_of_data
      simp [str_append_data]
    · simp [List.length_cons]
      omega

/-! ## Claim theorems -/

/-- C1 (code bug in src/app.py): the endpoint means to reject a non-PDF
content type with `HTTPException(400, "File must be a PDF")` — the
InvalidInputError of the spec — and does raise it before any text
extraction, but the raise happens inside the `try`, whose
`except Exception` catches the `HTTPException` (a subclass of `Exception`)
and re-raises it as a 500 processing failure.  So for every non-PDF request
the caller sees status 500 with the wrapped message, not the 400 bad-input
failure; no text extraction is attempted. -/
theorem parse_pdf_nonpdf_rewrapped_as_500 (nlp : String → List EntitySpan)
    (content_type : String) (pages : List PdfPage) (h : content_type ≠ "application/pdf") :
    parse_resume_pdf nlp content_type pages =
      (Except.error ⟨500, "Error processing PDF: 400: File must be a PDF"⟩, 0) := by
  simp only [parse_resume_pdf, if_pos h, wrapErrors]
  rfl

/-- Witness for C1 at the concrete content type "text/plain". -/
theorem parse_pdf_nonpdf_rewrapped_as_500_witness :
    parse_resume_pdf (fun _ => []) "text/plain" [] =
      (Except.error ⟨500, "Error processing PDF: 400: File must be a PDF"⟩, 0) :=
  parse_pdf_nonpdf_rewrapped_as_500 (fun _ => []) "text/plain" [] (by decide)

/-- C2: `is_valid_phone` accepts exactly the strings whose digits (all other
characters stripped) number between 10 and 13, and accepts
"+91 98765 43210" in particular (12 digits). -/
theorem is_valid_phone_digit_count_bounds (number : String) :
    (is_valid_phone number = true ↔
      10 ≤ (number.data.filter Char.isDigit).length
        ∧ (number.data.filter Char.isDigit).length ≤ 13)
    ∧ is_valid_phone "+91 98765 43210" = true := by
  constructor
  · simp [is_valid_phone]
  · decide

/-- C3 (amended): the resolved name is the trimmed text of the first PERSON
span whose trimmed text is nonempty, independently of the input text, so the
line-regex fallbacks are never applied when such a span exists. -/
theorem name_first_nonempty_person_span (nlp : String → List EntitySpan)
    (text n : String) (h : firstPersonCandidate (nlp text) = some n) :
    (extract_info_with_spacy_regex nlp text).name = n := by
  have hrec : (extract_info_with_spacy_regex nlp text).name
      = resolveName (nlp text) (splitlines text) := rfl
  rw [hrec, resolveName_entity _ _ _ h]

/-- Witness for C3: a PERSON span "Jane Doe" beats the first line
"John Smith works here". -/
theorem name_first_nonempty_person_span_witness :
    (extract_info_with_spacy_regex (fun _ => [⟨"PERSON", "Jane Doe"⟩])
      "John Smith works here").name = "Jane Doe" :=
  name_first_nonempty_person_span (fun _ => [⟨"PERSON", "Jane Doe"⟩])
    "John Smith works here" "Jane Doe" (by decide)

/-- Counterexample to C3 as stated: with a first PERSON span whose text is
whitespace only, the resolved name is not that span's trimmed text (the empty
string); the line fallback runs and yields "John Smith". -/
theorem name_person_span_whitespace_cex :
    (extract_info_with_spacy_regex (fun _ => [⟨"PERSON", " "⟩])
      "John Smith works here").name = "John Smith"
    ∧ pyStrip " " = "" := by
  exact ⟨by decide, by decide⟩

/-- C4 (amended): with no PERSON span and no match of the second strategy in
the first 10 lines, the resolved name is the captured group of the first line
matching the third strategy's pattern (which need not be a given later line
such as line 15). -/
theorem name_third_strategy_first_match (nlp : String → List EntitySpan)
    (text : String) (g : List Char)
    (h1 : ∀ e ∈ nlp text, e.label ≠ "PERSON")
    (h2 : nameFromLines10 (splitlines text) = none)
    (h3 : nameFromLinesAll (splitlines text) = some g) :
    (extract_info_with_spacy_regex nlp text).name = pyStrip (String.mk g) := by
  have hrec : (extract_info_with_spacy_regex nlp text).name
      = resolveName (nlp text) (splitlines text) := rfl
  rw [hrec, resolveName_strategy3 _ _ _ h1 h2 h3]

/-- Witness for C4: no entities, lines 0-14 empty, line 15 is
"Name: Alice Johnson"; the resolved name is "Alice Johnson". -/
theorem name_third_strategy_first_match_witness :
    (extract_info_with_spacy_regex (fun _ => [])
      "\n\n\n\n\n\n\n\n\n\n\n\n\n\n\nName: Alice Johnson").name = "Alice Johnson" :=
  (name_third_strategy_first_match (fun _ => [])
    "\n\n\n\n\n\n\n\n\n\n\n\n\n\n\nName: Alice Johnson" ("Alice Johnson".data)
    (by decide) (by decide) (by decide)).trans (by decide)

/-- Counterexample to C4 as stated: no PERSON span, the first 10 lines (all
empty) match no two-word pattern, and line 15 is exactly
"Name: Alice Johnson" — yet the resolved name is "grace hopper", captured
from the earlier line 10 "name grace hopper", which the third strategy
reaches first. -/
theorem name_third_strategy_not_line15_cex :
    ((splitlines "\n\n\n\n\n\n\n\n\n\nname grace hopper\n\n\n\n\nName: Alice Johnson")[15]?
        = some "Name: Alice Johnson")
    ∧ (∀ l ∈ (splitlines
        "\n\n\n\n\n\n\n\n\n\nname grace hopper\n\n\n\n\nName: Alice Johnson").take 10,
        nameMatch2 (pyStrip l).data = none)
    ∧ (extract_info_with_spacy_regex (fun _ => [])
        "\n\n\n\n\n\n\n\n\n\nname grace hopper\n\n\n\n\nName: Alice Johnson").name
      = "grace hopper"
    ∧ "grace hopper" ≠ "Alice Johnson" := by
  refine ⟨by decide, by decide, by decide, by decide⟩

/-- C5 (amended): `name`, `email`, `phone`, `location`, `skills` are always
present (empty-string/empty-list defaults); but the `First Name`/`Last Name`
keys are present exactly when a name was resolved, and `linkedin`/`github`
exactly when their regex matched — when no name is resolved, `First Name` and
`Last Name` are omitted just like unmatched `linkedin`/`github`. -/
theorem record_field_presence (nlp : String → List EntitySpan) (text : String) :
    ((extract_info_with_spacy_regex nlp text).firstName.isSome
        = !((extract_info_with_spacy_regex nlp text).name == ""))
    ∧ ((extract_info_with_spacy_regex nlp text).lastName.isSome
        = !((extract_info_with_spacy_regex nlp text).name == ""))
    ∧ ((extract_info_with_spacy_regex nlp text).linkedin.isSome
        = (linkedinSearch text).isSome)
    ∧ ((extract_info_with_spacy_regex nlp text).github.isSome
        = (githubSearch text).isSome) := by
  by_cases h : resolveName (nlp text) (splitlines text) = "" <;>
    simp [extract_info_with_spacy_regex, h]

/-- Counterexample to C5 as stated: on input with no entities and empty text
no name is resolved and the `First Name`/`Last Name` keys are absent — they
are not always-present empty strings. -/
theorem record_first_last_name_absent_cex :
    (extract_info_with_spacy_regex (fun _ => []) "").firstName = none
    ∧ (extract_info_with_spacy_regex (fun _ => []) "").lastName = none := by
  exact ⟨rfl, rfl⟩

/-- C7: the skills field is exactly the trimmed texts of the SKILL-labeled
spans in encounter order, duplicates preserved; in particular
[SKILL:"Python", SKILL:"Go", SKILL:"Python"] yields
["Python", "Go", "Python"]. -/
theorem skills_encounter_order_with_duplicates (nlp : String → List EntitySpan)
    (text : String) :
    (extract_info_with_spacy_regex nlp text).skills
      = ((nlp text).filter (fun e => e.label == "SKILL")).map (fun e => pyStrip e.text)
    ∧ (extract_info_with_spacy_regex
        (fun _ => [⟨"SKILL", "Python"⟩, ⟨"SKILL", "Go"⟩, ⟨"SKILL", "Python"⟩]) "").skills
      = ["Python", "Go", "Python"] := by
  constructor
  · have hrec : (extract_info_with_spacy_regex nlp text).skills
        = (entityPass (nlp text) ("", "", [])).2.2 := rfl
    rw [hrec, entityPass_skills]
    simp
  · rfl

/-- C8: with the page-text and OCR collaborators abstracted, the OCR path is
taken iff the concatenated direct text has stripped length below 100; it then
runs once per page and the result is the concatenation of the per-page OCR
outputs each followed by a newline, in page order, replacing the direct
text; otherwise the direct concatenation is returned and OCR runs zero
times. -/
theorem pdf_extraction_ocr_gate (pages : List PdfPage) :
    extract_text_from_pdf pages =
      if (pyStrip (String.join (pages.map fun p => p.directText))).length < 100 then
        (String.join (pages.map fun p => p.ocrText ++ "\n"), pages.length)
      else (String.join (pages.map fun p => p.directText), 0) := by
  simp only [extract_text_from_pdf, foldl_direct_text, str_nil_append]
  by_cases hc :
      (pyStrip (String.join (pages.map fun p => p.directText))).length < 100
  · rw [if_pos hc, if_pos hc, extract_text_with_ocr, foldl_ocr_text, str_nil_append]
    simp
  · rw [if_neg hc, if_neg hc]

/-- C10: the pipeline is a total function of the text and the recognizer's
spans — every regex search, trim, split and append of the embedding is a
terminating total function — so the request-level error branch is
unreachable and the all-empty record is a valid successful outcome
(obtained, e.g., for empty text and no spans). -/
theorem pipeline_total_no_error (nlp : String → List EntitySpan) (text : String) :
    parse_resume nlp text = Except.ok (extract_info_with_spacy_regex nlp text)
    ∧ extract_info_with_spacy_regex (fun _ => []) "" =
      { name := "", email := "", phone := "", location := "", skills := [],
        firstName := none, lastName := none, linkedin := none, github := none } := by
  exact ⟨rfl, rfl⟩


/-! ## The phone fallback regex -/

theorem phoneDigits_spec {cs run : List Char} (h : phoneDigits cs = some run) :
    (∀ c ∈ run, c.isDigit = true) ∧ 10 ≤ run.length ∧ run.length ≤ 13 := by
  simp only [phoneDigits] at h
  split at h
  · next hcond =>
    cases h
    exact ⟨fun c hc => List.mem_takeWhile_imp hc, hcond.1, hcond.2.1⟩
  · cases h

theorem phoneMatchAt_spec {pw : Bool} {cs m : List Char} (h : phoneMatchAt pw cs = some m) :
    (∃ seps run, m = '+' :: '9' :: '1' :: (seps ++ run)
        ∧ (∀ c ∈ seps, isSep c = true) ∧ (∀ c ∈ run, c.isDigit = true)
        ∧ 10 ≤ run.length ∧ run.length ≤ 13)
    ∨ ((∀ c ∈ m, c.isDigit = true) ∧ 10 ≤ m.length ∧ m.length ≤ 13) := by
  unfold phoneMatchAt at h
  split at h
  · split at h
    · obtain ⟨run, hrun, hm⟩ := Option.map_eq_some'.mp h
      obtain ⟨hd, h10, h13⟩ := phoneDigits_spec hrun
      exact Or.inl ⟨(cs.drop 3).takeWhile isSep, run, hm.symm,
        fun c hc => List.mem_takeWhile_imp hc, hd, h10, h13⟩
    · cases h
  · split at h
    · exact Or.inr (phoneDigits_spec h)
    · cases h

theorem searchAux_some {f : Bool → List Char → Option (List Char)} {P : List Char → Prop}
    (hf : ∀ pw cs m, f pw cs = some m → P m) :
    ∀ pw cs m, searchAux f pw cs = some m → P m := by
  intro pw cs
  induction cs generalizing pw with
  | nil => intro m h; simp [searchAux] at h
  | cons c cs ih =>
    intro m h
    unfold searchAux at h
    cases hc : f pw (c :: cs) with
    | some r =>
      rw [hc] at h
      cases h
      exact hf pw (c :: cs) _ hc
    | none =>
      rw [hc] at h
      exact ih (isWordChar c) m h

/-- C6: whenever the phone fallback regex matches, the match fails
`is_valid_phone` exactly when it carries the `+91` prefix and its digit class
matched more than 11 digits (total digit count above 13, i.e. the digit class
matched 12 or 13): without the prefix a match is always valid. -/
theorem phone_fallback_valid_unless_plus91_overflow (text m : String)
    (h : phoneFallbackSearch text = some m) :
    is_valid_phone m = false ↔
      (m.data.take 3 = ['+', '9', '1'] ∧ 13 < (m.data.filter Char.isDigit).length) := by
  unfold phoneFallbackSearch at h
  obtain ⟨ml, hml, hmk⟩ := Option.map_eq_some'.mp h
  have hshape :
      (∃ seps run, ml = '+' :: '9' :: '1' :: (seps ++ run)
          ∧ (∀ c ∈ seps, isSep c = true) ∧ (∀ c ∈ run, c.isDigit = true)
          ∧ 10 ≤ run.length ∧ run.length ≤ 13)
      ∨ ((∀ c ∈ ml, c.isDigit = true) ∧ 10 ≤ ml.length ∧ ml.length ≤ 13) :=
    searchAux_some (fun pw cs m2 hm2 => phoneMatchAt_spec hm2) false text.data ml hml
  have hdata : m.data = ml := by rw [← hmk]
  rcases hshape with ⟨seps, run, hm, hseps, hrun, h10, h13⟩ | ⟨hdig, h10, h13⟩
  · have hfil : ml.filter Char.isDigit = '9' :: '1' :: run := by
      rw [hm]
      have hsepnil : seps.filter Char.isDigit = [] :=
        List.filter_eq_nil_iff.mpr (fun c hc => by simp [isSep_not_digit (hseps c hc)])
      have hrunall : run.filter Char.isDigit = run :=
        List.filter_eq_self.mpr hrun
      simp [List.filter_cons, List.filter_append, hsepnil, hrunall]
    have htake : ml.take 3 = ['+', '9', '1'] := by rw [hm]; rfl
    rw [show is_valid_phone m
        = (decide (10 ≤ (m.data.filter Char.isDigit).length)
            && decide ((m.data.filter Char.isDigit).length ≤ 13)) from rfl]
    rw [hdata, hfil, htake]
    simp only [List.length_cons]
    constructor
    · intro hb
      refine ⟨by simp, ?_⟩
      rcases Bool.and_eq_false_iff.mp hb with hb | hb <;>
        · have := of_decide_eq_false hb
          omega
    · intro ⟨_, hlen⟩
      have : ¬((run.length + 1 + 1) ≤ 13) := by omega
      simp [this]
  · have hfil : ml.filter Char.isDigit = ml := List.filter_eq_self.mpr hdig
    have hvalid : is_valid_phone m = true := by
      rw [show is_valid_phone m
          = (decide (10 ≤ (m.data.filter Char.isDigit).length)
              && decide ((m.data.filter Char.isDigit).length ≤ 13)) from rfl]
      rw [hdata, hfil]
      simp [h10, h13]
    rw [hvalid]
    simp only [Bool.true_eq_false, false_iff]
    intro ⟨htake, _⟩
    rw [hdata] at htake
    have hplus : '+' ∈ ml := List.take_subset 3 ml (htake ▸ (by simp))
    have := hdig '+' hplus
    simp at this

/-- Witness for C6: in "a+91 123456789012" the fallback matches
"+91 123456789012" (digit class of width 12, 14 digits total), which fails
validation. -/
theorem phone_fallback_valid_unless_plus91_overflow_witness :
    is_valid_phone "+91 123456789012" = false ↔
      (("+91 123456789012" : String).data.take 3 = ['+', '9', '1']
        ∧ 13 < (("+91 123456789012" : String).data.filter Char.isDigit).length) :=
  phone_fallback_valid_unless_plus91_overflow "a+91 123456789012" "+91 123456789012" (by decide)


/-! ## The email regex -/

theorem wellFormedEmail_decomp (a : String) (ha : wellFormedEmail a = true) :
    ∃ loc d1 d2 : List Char,
      a.data = loc ++ '@' :: (d1 ++ '.' :: d2)
      ∧ loc ≠ [] ∧ d1 ≠ [] ∧ d2 ≠ []
      ∧ (∀ c ∈ loc, isLocalChar c = true) ∧ (∀ c ∈ d1, isDom1Char c = true)
      ∧ (∀ c ∈ d2, isDom2Char c = true)
      ∧ wordAfter loc = true ∧ wordAfter d2.reverse = true := by
  simp only [wellFormedEmail, Bool.and_eq_true, beq_iff_eq, decide_eq_true_eq,
    List.isEmpty_iff] at ha
  obtain ⟨⟨⟨⟨⟨⟨⟨hlocne, hat⟩, hd1ne⟩, hdot⟩, hd2ne⟩, hr5⟩, hw1⟩, hw2⟩ := ha
  obtain ⟨t1, hr1⟩ : ∃ t, a.data.dropWhile isLocalChar = '@' :: t := by
    cases hcase : a.data.dropWhile isLocalChar with
    | nil => rw [hcase] at hat; simp at hat
    | cons x t =>
      rw [hcase] at hat
      simp at hat
      subst hat
      exact ⟨t, rfl⟩
  simp only [hr1, List.drop_succ_cons, List.drop_zero] at hd1ne hdot hd2ne hr5 hw2
  obtain ⟨t2, hr3⟩ : ∃ t, t1.dropWhile isDom1Char = '.' :: t := by
    cases hcase : t1.dropWhile isDom1Char with
    | nil => rw [hcase] at hdot; simp at hdot
    | cons x t =>
      rw [hcase] at hdot
      simp at hdot
      subst hdot
      exact ⟨t, rfl⟩
  simp only [hr3, List.drop_succ_cons, List.drop_zero] at hd2ne hr5 hw2
  refine ⟨a.data.takeWhile isLocalChar, t1.takeWhile isDom1Char, t2.takeWhile isDom2Char,
    ?_, hlocne, hd1ne, hd2ne, fun c hc => List.mem_takeWhile_imp hc,
    fun c hc => List.mem_takeWhile_imp hc, fun c hc => List.mem_takeWhile_imp hc, hw1, hw2⟩
  have h3 : t2.takeWhile isDom2Char = t2 := by
    conv_rhs => rw [← List.takeWhile_append_dropWhile (p := isDom2Char) (l := t2)]
    rw [hr5, List.append_nil]
  have h2 : t1 = t1.takeWhile isDom1Char ++ '.' :: t2.takeWhile isDom2Char := by
    rw [h3]
    conv_lhs => rw [← List.takeWhile_append_dropWhile (p := isDom1Char) (l := t1)]
    rw [hr3]
  conv_lhs => rw [← List.takeWhile_append_dropWhile (p := isLocalChar) (l := a.data)]
  rw [hr1, ← h2]

theorem emailMatchAt_wf (loc d1 d2 wsr : List Char)
    (hlocne : loc ≠ []) (hd1ne : d1 ≠ []) (_hd2ne : d2 ≠ [])
    (hlocm : ∀ c ∈ loc, isLocalChar c = true)
    (hd1m : ∀ c ∈ d1, isDom1Char c = true)
    (hd2m : ∀ c ∈ d2, isDom2Char c = true)
    (hw1 : wordAfter loc = true) (hw2 : wordAfter d2.reverse = true)
    (hws : ∀ c ∈ wsr, pySpace c = true) :
    emailMatchAt false ((loc ++ '@' :: (d1 ++ '.' :: d2)) ++ wsr)
      = some (loc ++ '@' :: (d1 ++ '.' :: d2)) := by
  have hX : (loc ++ '@' :: (d1 ++ '.' :: d2)) ++ wsr
      = loc ++ '@' :: (d1 ++ '.' :: (d2 ++ wsr)) := by simp
  have hha : ∀ c, ('@' :: (d1 ++ '.' :: (d2 ++ wsr))).head? = some c →
      isLocalChar c = false := by
    intro c hc
    simp at hc
    subst hc
    decide
  have ht1 : (loc ++ '@' :: (d1 ++ '.' :: (d2 ++ wsr))).takeWhile isLocalChar = loc :=
    takeWhile_app _ _ hlocm hha
  have hd1' : (loc ++ '@' :: (d1 ++ '.' :: (d2 ++ wsr))).dropWhile isLocalChar
      = '@' :: (d1 ++ '.' :: (d2 ++ wsr)) :=
    dropWhile_app _ _ hlocm hha
  have hhb : ∀ c, ('.' :: (d2 ++ wsr)).head? = some c → isDom1Char c = false := by
    intro c hc
    simp at hc
    subst hc
    decide
  have ht2 : (d1 ++ '.' :: (d2 ++ wsr)).takeWhile isDom1Char = d1 :=
    takeWhile_app _ _ hd1m hhb
  have hd2' : (d1 ++ '.' :: (d2 ++ wsr)).dropWhile isDom1Char = '.' :: (d2 ++ wsr) :=
    dropWhile_app _ _ hd1m hhb
  have hhc : ∀ c, wsr.head? = some c → isDom2Char c = false := by
    intro c hc
    cases wsr with
    | nil => simp at hc
    | cons w t =>
      simp at hc
      subst hc
      exact pySpace_not_dom2 (hws w (by simp))
  have ht3 : (d2 ++ wsr).takeWhile isDom2Char = d2 := takeWhile_app _ _ hd2m hhc
  have hd3' : (d2 ++ wsr).dropWhile isDom2Char = wsr := dropWhile_app _ _ hd2m hhc
  have hwaws : wordAfter wsr = false := by
    cases wsr with
    | nil => rfl
    | cons w t => exact pySpace_not_word (hws w (by simp))
  have hshr : shrinkRev d2.reverse wsr = some d2.reverse := by
    cases hrev : d2.reverse with
    | nil =>
      rw [hrev] at hw2
      simp [wordAfter] at hw2
    | cons x t =>
      rw [hrev] at hw2
      have hx : isWordChar x = true := hw2
      show shrinkRev (x :: t) wsr = some (x :: t)
      simp [shrinkRev, hx, hwaws]
  have hwaX : wordAfter (loc ++ '@' :: (d1 ++ '.' :: (d2 ++ wsr))) = true := by
    obtain ⟨x, t, rfl⟩ : ∃ x t, loc = x :: t := by
      cases loc with
      | nil => exact absurd rfl hlocne
      | cons x t => exact ⟨x, t, rfl⟩
    exact hw1
  rw [hX]
  simp [emailMatchAt, hwaX, ht1, hd1', ht2, hd2', ht3, hd3', hshr, hlocne, hd1ne]

theorem searchAux_email_ws : ∀ (ws rest : List Char), (∀ c ∈ ws, pySpace c = true) →
    searchAux emailMatchAt false (ws ++ rest) = searchAux emailMatchAt false rest := by
  intro ws
  induction ws with
  | nil => intro rest _; rfl
  | cons w t ih =>
    intro rest hws
    have hw : pySpace w = true := hws w (by simp)
    have hwword : isWordChar w = false := pySpace_not_word hw
    have hmat : emailMatchAt false (w :: (t ++ rest)) = none := by
      have hwa : wordAfter (w :: (t ++ rest)) = false := hwword
      simp [emailMatchAt, hwa]
    show searchAux emailMatchAt false (w :: (t ++ rest)) = _
    simp only [searchAux, hmat, hwword]
    exact ih rest (fun c hc => hws c (by simp [hc]))

theorem searchAux_head {f : Bool → List Char → Option (List Char)} {cs m : List Char}
    (hne : cs ≠ []) (h : f false cs = some m) : searchAux f false cs = some m := by
  cases cs with
  | nil => exact absurd rfl hne
  | cons c t => simp only [searchAux, h]

theorem emailSearch_ws (a : String) (wsl wsr : List Char)
    (ha : wellFormedEmail a = true)
    (hl : ∀ c ∈ wsl, pySpace c = true) (hr : ∀ c ∈ wsr, pySpace c = true) :
    emailSearch (String.mk (wsl ++ a.data ++ wsr)) = some a := by
  obtain ⟨loc, d1, d2, hsplit, hlocne, hd1ne, hd2ne, hlocm, hd1m, hd2m, hw1, hw2⟩ :=
    wellFormedEmail_decomp a ha
  have hmatch : emailMatchAt false (a.data ++ wsr) = some a.data := by
    rw [hsplit]
    exact emailMatchAt_wf loc d1 d2 wsr hlocne hd1ne hd2ne hlocm hd1m hd2m hw1 hw2 hr
  have hne : a.data ++ wsr ≠ [] := by
    rw [hsplit]
    cases loc with
    | nil => exact absurd rfl hlocne
    | cons x t => simp
  have hassoc : (String.mk (wsl ++ a.data ++ wsr)).data = wsl ++ (a.data ++ wsr) := by
    simp
  unfold emailSearch
  rw [hassoc, searchAux_email_ws wsl (a.data ++ wsr) hl, searchAux_head hne hmatch]
  rfl

/-- C9: for a well-formed address, the extracted email field is the address
itself whatever whitespace or newlines surround it; in particular two texts
embedding the same single address with different surrounding whitespace have
equal extracted email fields. -/
theorem email_extraction_ws_independent (nlp nlp2 : String → List EntitySpan)
    (a : String) (ws1 ws2 ws3 ws4 : List Char)
    (ha : wellFormedEmail a = true)
    (h1 : ∀ c ∈ ws1, pySpace c = true) (h2 : ∀ c ∈ ws2, pySpace c = true)
    (h3 : ∀ c ∈ ws3, pySpace c = true) (h4 : ∀ c ∈ ws4, pySpace c = true) :
    (extract_info_with_spacy_regex nlp (String.mk (ws1 ++ a.data ++ ws2))).email = a
    ∧ (extract_info_with_spacy_regex nlp (String.mk (ws1 ++ a.data ++ ws2))).email
      = (extract_info_with_spacy_regex nlp2 (String.mk (ws3 ++ a.data ++ ws4))).email := by
  have he1 : emailSearch (String.mk (ws1 ++ a.data ++ ws2)) = some a :=
    emailSearch_ws a ws1 ws2 ha h1 h2
  have he2 : emailSearch (String.mk (ws3 ++ a.data ++ ws4)) = some a :=
    emailSearch_ws a ws3 ws4 ha h3 h4
  have hrec1 : (extract_info_with_spacy_regex nlp (String.mk (ws1 ++ a.data ++ ws2))).email
      = (emailSearch (String.mk (ws1 ++ a.data ++ ws2))).getD "" := rfl
  have hrec2 : (extract_info_with_spacy_regex nlp2 (String.mk (ws3 ++ a.data ++ ws4))).email
      = (emailSearch (String.mk (ws3 ++ a.data ++ ws4))).getD "" := rfl
  rw [hrec1, hrec2, he1, he2]
  exact ⟨rfl, rfl⟩

/-- Witness for C9 at "jane.doe@example.com" with two different whitespace
surroundings. -/
theorem email_extraction_ws_independent_witness :
    (extract_info_with_spacy_regex (fun _ => [])
        (String.mk ([' '] ++ ("jane.doe@example.com" : String).data ++ ['\n']))).email
      = "jane.doe@example.com"
    ∧ (extract_info_with_spacy_regex (fun _ => [])
        (String.mk ([' '] ++ ("jane.doe@example.com" : String).data ++ ['\n']))).email
      = (extract_info_with_spacy_regex (fun _ => [])
          (String.mk ([] ++ ("jane.doe@example.com" : String).data ++ [' ', ' ']))).email :=
  email_extraction_ws_independent (fun _ => []) (fun _ => []) "jane.doe@example.com"
    [' '] ['\n'] [] [' ', ' '] (by decide) (by decide) (by decide) (by decide) (by decide)

end DeployParser
